import Mathlib

/-!
Verification development for the `cpr_gm_helper` ingestion pipeline.

Python strings are modelled as `List Char` (`Str`), Python dicts as
association lists with insert-or-update semantics (`PyDict`), and the
JSON values exchanged with the persistence layer as an inductive `JVal`.
Each definition is a direct transcription of the function of the same
name in the repository sources; file paths are given in the doc comments.
Case mapping (`str.lower`) is modelled for ASCII, which covers every
character class the code's regular expressions mention (`[a-z0-9]`,
bullet glyphs, whitespace).
-/

namespace CprGm

/-- Python strings, modelled as lists of characters. -/
abbrev Str := List Char

/-- Python `dict` as an association list: `d[k] = v` updates the value in
place when the key is present and appends otherwise, matching CPython's
insertion-order semantics. -/
abbrev PyDict (α : Type) := List (Str × α)

/-- `d[k] = v` on a Python dict. -/
def dinsert (d : PyDict α) (k : Str) (v : α) : PyDict α :=
  match d with
  | [] => [(k, v)]
  | (k', v') :: rest =>
      if k' = k then (k, v) :: rest else (k', v') :: dinsert rest k v

/-- `d.get(k)` / `d[k]` lookup on a Python dict. -/
def dget? (d : PyDict α) (k : Str) : Option α :=
  match d with
  | [] => none
  | (k', v') :: rest => if k' = k then some v' else dget? rest k

/-- Keys of a Python dict, in order. -/
def dkeys (d : PyDict α) : List Str := d.map Prod.fst

/-- Values of a Python dict, in order (`d.values()`). -/
def dvalues (d : PyDict α) : List α := d.map Prod.snd

-- ── Identity Resolver (src/modules/data_models.py, `slug`) ──────────

/-- The character class `[a-z0-9]` of the `slug` regular expression. -/
def isSlugCh (c : Char) : Bool :=
  (decide ('a' ≤ c) && decide (c ≤ 'z')) || (decide ('0' ≤ c) && decide (c ≤ '9'))

/-- ASCII case mapping for one character (`str.lower`, restricted to the
basic latin range that the slug regular expression's character class can
keep). -/
def pyLowerCh (c : Char) : Char :=
  if 'A' ≤ c ∧ c ≤ 'Z' then Char.ofNat (c.toNat + 32) else c

/-- `text.lower()`. -/
def pyLower (s : Str) : Str := s.map pyLowerCh

/-- ASCII alphanumeric (`[A-Za-z0-9]`), the "alphanumeric character"
class relevant to the slug regular expression. -/
def isAsciiAlnum (c : Char) : Bool :=
  (decide ('A' ≤ c) && decide (c ≤ 'Z')) ||
  (decide ('a' ≤ c) && decide (c ≤ 'z')) ||
  (decide ('0' ≤ c) && decide (c ≤ '9'))

/-- `re.sub(r"[^a-z0-9]+", "_", s)`: replace every maximal run of
characters outside `[a-z0-9]` with a single underscore.  The boolean
argument records whether the previous character belonged to such a run
(in which case the run's underscore has already been emitted). -/
def subRuns : Bool → Str → Str
  | _, [] => []
  | inRun, c :: cs =>
      if isSlugCh c then c :: subRuns false cs
      else if inRun then subRuns true cs
      else '_' :: subRuns true cs

/-- `s.strip("_")`: drop leading and trailing underscores. -/
def stripUs (s : Str) : Str :=
  ((s.dropWhile (fun c => c = '_')).reverse.dropWhile (fun c => c = '_')).reverse

/-- `slug` from src/modules/data_models.py:
`re.sub(r"[^a-z0-9]+", "_", text.lower()).strip("_")`. -/
def slug (text : Str) : Str := stripUs (subRuns false (pyLower text))

-- ── Entity dataclasses (src/modules/data_models.py) ─────────────────

/-- The `Location` dataclass. -/
structure Location where
  id : Str
  name : Str
  description : Str := []
  type : Str := "Location".toList
  parent_location : Str := []
  city_manager : Str := []
  security_provider : Str := []
  region : Str := []
  factions : List Str := []
  events : List Str := []
  deriving Repr, DecidableEq

/-- The `NPC` dataclass. -/
structure NPC where
  id : Str
  name : Str
  description : Str := []
  role : Str := "NPC".toList
  affiliation : Str := []
  location : Str := []
  home_location : Str := []
  current_location : Str := []
  notes : Str := []
  relationships : PyDict Str := []
  deriving Repr, DecidableEq

/-- The `Faction` dataclass. -/
structure Faction where
  id : Str
  name : Str
  type : Str := "gang".toList
  description : Str := []
  deriving Repr, DecidableEq

-- ── WorldState CRUD (src/modules/world_state.py) ────────────────────

/-- The in-memory collections of `WorldState` (the three JSON file paths
and the auto-save side effect are an I/O boundary and are not part of the
state). -/
structure WorldState where
  locations : PyDict Location := []
  factions : PyDict Faction := []
  npcs : PyDict NPC := []
  deriving Repr, DecidableEq

/-- `WorldState.upsert_location`: `self.locations[loc.id] = loc`. -/
def upsert_location (ws : WorldState) (loc : Location) : WorldState :=
  { ws with locations := dinsert ws.locations loc.id loc }

/-- `WorldState.upsert_faction`: `self.factions[fac.id] = fac`. -/
def upsert_faction (ws : WorldState) (fac : Faction) : WorldState :=
  { ws with factions := dinsert ws.factions fac.id fac }

/-- `WorldState.upsert_npc`: `self.npcs[npc.id] = npc`. -/
def upsert_npc (ws : WorldState) (npc : NPC) : WorldState :=
  { ws with npcs := dinsert ws.npcs npc.id npc }

-- ── Delta records and merge (src/modules/session_processor.py,
--    `SessionProcessor._apply_deltas`) ────────────────────────────────

/-- One item of the `locations` array of a chunk result: `name` and
`description` are required by the extraction schema, `region` and
`parent` are optional keys (`none` models an absent key). -/
structure LocItem where
  name : Str
  description : Str
  region : Option Str := none
  parent : Option Str := none
  deriving Repr, DecidableEq

/-- One item of the `npcs` array of a chunk result. -/
structure NpcItem where
  name : Str
  description : Str
  role : Option Str := none
  faction : Option Str := none
  home : Option Str := none
  deriving Repr, DecidableEq

/-- One item of the `factions` array of a chunk result. -/
structure FacItem where
  name : Str
  description : Str
  type : Option Str := none
  deriving Repr, DecidableEq

/-- `slug(item.get(k, "")) if item.get(k) else ""`: a missing key and an
empty string are both falsy, yielding `""`. -/
def optSlug (o : Option Str) : Str :=
  match o with
  | none => []
  | some s => if s = [] then [] else slug s

/-- `item.get(k, "")`. -/
def optGetD (o : Option Str) : Str := o.getD []

/-- The `Location(...)` record built for a `locations` delta item in
`_apply_deltas` (fields not passed take the dataclass defaults). -/
def mkLocation (item : LocItem) : Location :=
  { id := slug item.name
    name := item.name
    description := item.description
    region := optGetD item.region
    parent_location := optSlug item.parent }

/-- The `NPC(...)` record built for an `npcs` delta item in
`_apply_deltas`.  Note `role` defaults to `""` here (the call site passes
`item.get("role","")`), not to the dataclass default `"NPC"`. -/
def mkNPC (item : NpcItem) : NPC :=
  { id := slug item.name
    name := item.name
    description := item.description
    role := optGetD item.role
    affiliation := optSlug item.faction
    home_location := optSlug item.home
    location := optSlug item.home }

/-- The `Faction(...)` record built for a `factions` delta item in
`_apply_deltas`. -/
def mkFaction (item : FacItem) : Faction :=
  { id := slug item.name
    name := item.name
    description := item.description
    type := (item.type).getD "gang".toList }

/-- The merge step for one `locations` delta item: build the record and
upsert it by its slugged id.  In the repository the `upsert_location`
call inside `_apply_deltas` is present but commented out (the constructed
record is only printed); this composition is the wiring of record
construction (live) with `WorldState.upsert_location` (live). -/
def applyLocItem (ws : WorldState) (item : LocItem) : WorldState :=
  upsert_location ws (mkLocation item)

/-- The merge step for one `npcs` delta item (see `applyLocItem`). -/
def applyNpcItem (ws : WorldState) (item : NpcItem) : WorldState :=
  upsert_npc ws (mkNPC item)

/-- The merge step for one `factions` delta item (see `applyLocItem`). -/
def applyFacItem (ws : WorldState) (item : FacItem) : WorldState :=
  upsert_faction ws (mkFaction item)

/-- The parsed chunk result consumed by `_apply_deltas`:
`data.get("locations", [])`, `data.get("npcs", [])`,
`data.get("factions", [])` (an absent key defaults to the empty list). -/
structure ChunkDeltas where
  locations : List LocItem := []
  npcs : List NpcItem := []
  factions : List FacItem := []
  deriving Repr, DecidableEq

/-- `SessionProcessor._apply_deltas` exactly as checked out: for every
item the slugged id is computed and the full record is constructed and
`print`ed, but every `upsert_location` / `upsert_npc` / `upsert_faction`
call is commented out, so the world state is returned **unchanged**.
The result pairs the (untouched) state with the records printed for the
three loops, in loop order. -/
def apply_deltas (ws : WorldState) (d : ChunkDeltas) :
    WorldState × (List Location × List NPC × List Faction) :=
  (ws, d.locations.map mkLocation, d.npcs.map mkNPC, d.factions.map mkFaction)

-- ── JSON persistence (src/modules/world_state.py, `_save` / `_load`
--    and `_safe_read`) ────────────────────────────────────────────────

/-- JSON values, at the fidelity the world-state files use: strings,
arrays and objects (entity fields are strings, lists of strings, and
string-to-string dicts; no numbers or booleans occur). -/
inductive JVal where
  | str : Str → JVal
  | arr : List JVal → JVal
  | obj : List (Str × JVal) → JVal

/-- `asdict(location)`: every dataclass field, in declaration order. -/
def locToJson (l : Location) : JVal :=
  JVal.obj
    [ ("id".toList, JVal.str l.id)
    , ("name".toList, JVal.str l.name)
    , ("description".toList, JVal.str l.description)
    , ("type".toList, JVal.str l.type)
    , ("parent_location".toList, JVal.str l.parent_location)
    , ("city_manager".toList, JVal.str l.city_manager)
    , ("security_provider".toList, JVal.str l.security_provider)
    , ("region".toList, JVal.str l.region)
    , ("factions".toList, JVal.arr (l.factions.map JVal.str))
    , ("events".toList, JVal.arr (l.events.map JVal.str)) ]

/-- `asdict(npc)`. -/
def npcToJson (n : NPC) : JVal :=
  JVal.obj
    [ ("id".toList, JVal.str n.id)
    , ("name".toList, JVal.str n.name)
    , ("description".toList, JVal.str n.description)
    , ("role".toList, JVal.str n.role)
    , ("affiliation".toList, JVal.str n.affiliation)
    , ("location".toList, JVal.str n.location)
    , ("home_location".toList, JVal.str n.home_location)
    , ("current_location".toList, JVal.str n.current_location)
    , ("notes".toList, JVal.str n.notes)
    , ("relationships".toList,
       JVal.obj (n.relationships.map (fun kv => (kv.1, JVal.str kv.2)))) ]

/-- `asdict(faction)`. -/
def facToJson (f : Faction) : JVal :=
  JVal.obj
    [ ("id".toList, JVal.str f.id)
    , ("name".toList, JVal.str f.name)
    , ("type".toList, JVal.str f.type)
    , ("description".toList, JVal.str f.description) ]

/-- Read a string field of a JSON object (a kwarg of `Location(**o)`). -/
def jStr? (o : PyDict JVal) (k : Str) : Option Str :=
  match dget? o k with
  | some (JVal.str s) => some s
  | _ => none

/-- Read a string field with a dataclass default for an absent key. -/
def jStrD (o : PyDict JVal) (k : Str) (d : Str) : Str :=
  match dget? o k with
  | some (JVal.str s) => s
  | _ => d

/-- Read back one JSON array element as a string. -/
def jvalToStr? (j : JVal) : Option Str :=
  match j with | JVal.str s => some s | _ => none

/-- One entry of a JSON object read back as a string-valued pair. -/
def jkvToStrKv? (kv : Str × JVal) : Option (Str × Str) :=
  match kv.2 with | JVal.str s => some (kv.1, s) | _ => none

/-- Read a list-of-strings field with default `[]` (see `jvalToStr?`). -/
def jStrList (o : PyDict JVal) (k : Str) : List Str :=
  match dget? o k with
  | some (JVal.arr xs) => xs.filterMap jvalToStr?
  | _ => []

/-- Read a string-to-string dict field with default `{}`. -/
def jStrDict (o : PyDict JVal) (k : Str) : PyDict Str :=
  match dget? o k with
  | some (JVal.obj kvs) => kvs.filterMap jkvToStrKv?
  | _ => []

/-- `Location(**o)`: `id` and `name` are required, every other field
falls back to its dataclass default.  (A record with extra keys would
raise in Python; `_save` emits exactly the known keys, so that branch is
never exercised by the persistence round trip.) -/
def locFromJson (j : JVal) : Option Location :=
  match j with
  | JVal.obj o =>
      match jStr? o "id".toList, jStr? o "name".toList with
      | some i, some n =>
          some { id := i, name := n
                 description := jStrD o "description".toList []
                 type := jStrD o "type".toList "Location".toList
                 parent_location := jStrD o "parent_location".toList []
                 city_manager := jStrD o "city_manager".toList []
                 security_provider := jStrD o "security_provider".toList []
                 region := jStrD o "region".toList []
                 factions := jStrList o "factions".toList
                 events := jStrList o "events".toList }
      | _, _ => none
  | _ => none

/-- `NPC(**o)`. -/
def npcFromJson (j : JVal) : Option NPC :=
  match j with
  | JVal.obj o =>
      match jStr? o "id".toList, jStr? o "name".toList with
      | some i, some n =>
          some { id := i, name := n
                 description := jStrD o "description".toList []
                 role := jStrD o "role".toList "NPC".toList
                 affiliation := jStrD o "affiliation".toList []
                 location := jStrD o "location".toList []
                 home_location := jStrD o "home_location".toList []
                 current_location := jStrD o "current_location".toList []
                 notes := jStrD o "notes".toList []
                 relationships := jStrDict o "relationships".toList }
      | _, _ => none
  | _ => none

/-- `Faction(**o)`. -/
def facFromJson (j : JVal) : Option Faction :=
  match j with
  | JVal.obj o =>
      match jStr? o "id".toList, jStr? o "name".toList with
      | some i, some n =>
          some { id := i, name := n
                 type := jStrD o "type".toList "gang".toList
                 description := jStrD o "description".toList [] }
      | _, _ => none
  | _ => none

/-- `_save`, locations file: `{"locations": [asdict(l) for l in
self.locations.values()]}`. -/
def saveLocations (ws : WorldState) : JVal :=
  JVal.obj [("locations".toList, JVal.arr ((dvalues ws.locations).map locToJson))]

/-- `_save`, factions file. -/
def saveFactions (ws : WorldState) : JVal :=
  JVal.obj [("factions".toList, JVal.arr ((dvalues ws.factions).map facToJson))]

/-- `_save`, npcs file. -/
def saveNpcs (ws : WorldState) : JVal :=
  JVal.obj [("npcs".toList, JVal.arr ((dvalues ws.npcs).map npcToJson))]

/-- `_safe_read`: a file that is absent, empty, or whose content
`json.loads` rejects (modelled as `none`) is read as `{}`. -/
def safe_read (parsed : Option JVal) : JVal :=
  parsed.getD (JVal.obj [])

/-- `d.get(key, [])` on the parsed file: the array under `key`, or `[]`
when the key is absent.  (`_save` only ever writes an array there.) -/
def jArrD (j : JVal) (k : Str) : List JVal :=
  match j with
  | JVal.obj o =>
      match dget? o k with
      | some (JVal.arr xs) => xs
      | _ => []
  | _ => []

/-- Parse every record of the array; one rejected record makes the whole
load raise (`none`). -/
def parseAll (fromJson : JVal → Option α) : List JVal → Option (List α)
  | [] => some []
  | j :: t =>
      match fromJson j with
      | none => none
      | some v =>
          match parseAll fromJson t with
          | none => none
          | some vs => some (v :: vs)

/-- `{o["id"]: Entity(**o) for o in records}`: parse every record and key
the dict by the record's `id` field. -/
def loadColl (records : List JVal) (fromJson : JVal → Option α)
    (getId : α → Str) : Option (PyDict α) :=
  match parseAll fromJson records with
  | none => none
  | some es => some (es.foldl (fun m e => dinsert m (getId e) e) [])

/-- `WorldState._load` after `_safe_read` of the three files: each
argument is the parse outcome of one backing file (`none` = file absent,
empty, or not valid JSON). -/
def loadWorld (locFile facFile npcFile : Option JVal) : Option WorldState := do
  let locs ← loadColl (jArrD (safe_read locFile) "locations".toList)
      locFromJson Location.id
  let facs ← loadColl (jArrD (safe_read facFile) "factions".toList)
      facFromJson Faction.id
  let npcs ← loadColl (jArrD (safe_read npcFile) "npcs".toList)
      npcFromJson NPC.id
  pure { locations := locs, factions := facs, npcs := npcs }

/-- The scaffolded empty world state. -/
def emptyWS : WorldState := {}

/-- The `WorldState` class invariant: every collection keys each entity
by its own `id` field (established by `upsert_*` and by `_load`), and
keys are unique (they come from Python dicts). -/
def WSwf (ws : WorldState) : Prop :=
  (dkeys ws.locations).Nodup ∧ (∀ kv ∈ ws.locations, kv.1 = kv.2.id) ∧
  (dkeys ws.factions).Nodup ∧ (∀ kv ∈ ws.factions, kv.1 = kv.2.id) ∧
  (dkeys ws.npcs).Nodup ∧ (∀ kv ∈ ws.npcs, kv.1 = kv.2.id)

instance (ws : WorldState) : Decidable (WSwf ws) := by
  unfold WSwf; infer_instance

-- ── Transcript chunker (src/modules/session_processor.py,
--    `SessionProcessor._split_by_tokens`) ──────────────────────────────

/-- Python `text.split()`: split on runs of whitespace, no empty words.
The first argument accumulates the current word, reversed. -/
def pyWordsAux : Str → Str → List Str
  | [], cur => if cur = [] then [] else [cur.reverse]
  | c :: rest, cur =>
      if c.isWhitespace then
        if cur = [] then pyWordsAux rest [] else cur.reverse :: pyWordsAux rest []
      else pyWordsAux rest (c :: cur)

/-- `text.split()`. -/
def pyWords (s : Str) : List Str := pyWordsAux s []

/-- `" ".join(words)`. -/
def joinSp : List Str → Str
  | [] => []
  | [w] => w
  | w :: ws => w ++ ' ' :: joinSp ws

/-- The word loop of `_split_by_tokens`: append each word to the buffer
and flush the buffer as a chunk whenever its token count (of the
space-joined buffer, per the external tokenizer `tokLen`) exceeds
`maxTok`; flush a nonempty final buffer. -/
def sbtGo (tokLen : Str → Nat) (maxTok : Nat) : List Str → List Str → List Str
  | [], buf => if buf = [] then [] else [joinSp buf]
  | w :: ws, buf =>
      let buf' := buf ++ [w]
      if maxTok < tokLen (joinSp buf') then
        joinSp buf' :: sbtGo tokLen maxTok ws []
      else sbtGo tokLen maxTok ws buf'

/-- `_split_by_tokens(text, max_tok)`; the tokenizer (`ENC.encode`) is an
external collaborator, abstracted as an arbitrary `tokLen`. -/
def split_by_tokens (tokLen : Str → Nat) (text : Str) (maxTok : Nat) : List Str :=
  sbtGo tokLen maxTok (pyWords text) []

-- ── Document chunker (src/modules/rag_system.py, `RAGSys._chunk_pdf`,
--    per-page text processing) ─────────────────────────────────────────

/-- Strip whitespace from both ends (Python `str.strip()`). -/
def pyStrip (s : Str) : Str :=
  ((s.dropWhile Char.isWhitespace).reverse.dropWhile Char.isWhitespace).reverse

/-- Split at each newline, keeping all pieces (helper for `splitlines`). -/
def splitNl : Str → List Str
  | [] => [[]]
  | c :: r =>
      if c = '\n' then [] :: splitNl r
      else
        match splitNl r with
        | [] => [[c]]
        | h :: t => (c :: h) :: t

/-- Python `str.splitlines()` for newline-delimited page text: like
splitting at `'\n'`, except that a trailing newline contributes no empty
final line and the empty string has no lines. -/
def pySplitlines (s : Str) : List Str :=
  if s = [] then []
  else if s.getLast? = some '\n' then (splitNl s).dropLast
  else splitNl s

/-- The bullet-glyph class `[•\-•\*]` (`•` is `•` again). -/
def isBullet (c : Char) : Bool := c = '•' || c = '-' || c = '*'

/-- `re.match(r"^[•\-•\*]", ln)`: does the line start with a bullet? -/
def startsBullet : Str → Bool
  | [] => false
  | c :: _ => isBullet c

/-- `re.sub(r"^[•\-•\*]\s*", "", ln)`: drop one leading bullet glyph
and the whitespace after it. -/
def stripBulletHead (ln : Str) : Str :=
  match ln with
  | [] => []
  | c :: rest => if isBullet c then rest.dropWhile Char.isWhitespace else ln

/-- `ln and (len(ln) < 30 or re.match(bullet, ln))`. -/
def shortOrBullet (ln : Str) : Bool :=
  ln ≠ [] && (decide (ln.length < 30) || startsBullet ln)

/-- `" • ".join(buf)`. -/
def joinBullet : List Str → Str
  | [] => []
  | [w] => w
  | w :: ws => w ++ ' ' :: '•' :: ' ' :: joinBullet ws

/-- The line-merging loop of `_chunk_pdf`: short or bulleted lines are
buffered (bullet glyph stripped) and flushed as one bullet-joined line;
the loop runs over `raw + [""]` so the final buffer is flushed. -/
def mergeGo : List Str → List Str → List Str
  | [], _buf => []
  | ln :: rest, buf =>
      if shortOrBullet ln then mergeGo rest (buf ++ [stripBulletHead ln])
      else
        (if buf ≠ [] then [joinBullet buf] else []) ++
        (if ln ≠ [] then [ln] else []) ++
        mergeGo rest []

/-- Drop a leading run of newlines (the remainder of a blank-line
separator match). -/
def dropNls : Str → Str
  | [] => []
  | c :: r => if c = '\n' then dropNls r else c :: r

/-- `re.split(r"\n{2,}", s)`: split at each maximal run of two or more
newlines.  The accumulator holds the current piece, reversed; the fuel
only bounds the recursion (each step consumes at least one character, so
`s.length` is always enough). -/
def splitBlankGo : Nat → Str → Str → List Str
  | _, [], cur => [cur.reverse]
  | 0, s, cur => [cur.reverse ++ s]
  | fuel + 1, c :: rest, cur =>
      if c = '\n' ∧ rest.head? = some '\n' then
        cur.reverse :: splitBlankGo fuel (dropNls rest) []
      else splitBlankGo fuel rest (c :: cur)

/-- `re.split(r"\n{2,}", s)`. -/
def splitBlank (s : Str) : List Str := splitBlankGo s.length s []

/-- `"\n".join(merged)`. -/
def joinNl : List Str → Str
  | [] => []
  | [w] => w
  | w :: ws => w ++ '\n' :: joinNl ws

/-- The per-page chunk texts `_chunk_pdf` yields for one page's raw text:
strip each line, merge short/bulleted lines, rejoin with `"\n"`, split on
blank-line runs, strip, and keep candidates of length ≥ 30.  (The id,
page number, chapter and source-name stamping is provenance metadata on
each yielded text.) -/
def chunkPageTexts (pageText : Str) : List Str :=
  let raw := (pySplitlines pageText).map pyStrip
  let merged := mergeGo (raw ++ [[]]) []
  ((splitBlank (joinNl merged)).map pyStrip).filter (fun c => 30 ≤ c.length)

-- ── Chapter resolution (src/modules/rag_system.py, `_chunk_pdf`,
--    the `page_map` loop) ──────────────────────────────────────────────

/-- One `book.get_toc(simple=True)` entry `[level, title, start_page]`,
with the unused level omitted: `(title, 1-based start page)`. -/
abbrev TocEntry := Str × Nat

/-- `toc[i][2]` (the 1-based start page of entry `i`; out-of-range reads
never occur in the loop, `0` is a dummy). -/
def tocStart (toc : List TocEntry) (i : Nat) : Nat :=
  ((toc.get? i).map Prod.snd).getD 0

/-- `toc[i][1]` (the title of entry `i`). -/
def tocTitle (toc : List TocEntry) (i : Nat) : Str :=
  ((toc.get? i).map Prod.fst).getD []

/-- The inner `while t_i + 1 < len(toc) and toc[t_i + 1][2] <= p + 1`
loop; `fuel = toc.length` bounds the number of advances. -/
def advTi (toc : List TocEntry) (p : Nat) : Nat → Nat → Nat
  | ti, 0 => ti
  | ti, fuel + 1 =>
      if ti + 1 < toc.length ∧ tocStart toc (ti + 1) ≤ p + 1 then
        advTi toc p (ti + 1) fuel
      else ti

/-- `"Unknown"`. -/
def unknownChapter : Str := "Unknown".toList

/-- The `page_map` loop body over pages `p0, p0+1, …` (`r` pages left),
carrying the persistent `t_i`: each page is mapped to
`toc[t_i][1] if toc else "Unknown"`. -/
def pageMapGo (toc : List TocEntry) : Nat → Nat → Nat → List Str
  | _ti, _p0, 0 => []
  | ti, p0, r + 1 =>
      let ti' := advTi toc p0 ti toc.length
      (if toc = [] then unknownChapter else tocTitle toc ti') ::
        pageMapGo toc ti' (p0 + 1) r

/-- `page_map` for a document of `n` pages: the chapter assigned to each
page `0 ≤ p < n`, in page order. -/
def pageMap (toc : List TocEntry) (n : Nat) : List Str :=
  pageMapGo toc 0 0 n

-- ── Chunk analysis (src/modules/session_processor.py,
--    `SessionProcessor._analyze_chunk` and `process`) ──────────────────

/-- One tool call of the model response (`.function.arguments` is the
raw JSON text). -/
structure ToolCall where
  arguments : Str

/-- The response message: `tool_calls` is `None` when the model made no
tool call. -/
structure RespMessage where
  tool_calls : Option (List ToolCall)

/-- `_analyze_chunk` after the network call, parameterised by the
external `json.loads` (`parse`; `none` = raise `JSONDecodeError`):
`tool_calls[0]` and `tool_calls[1]` are indexed and parsed with **no**
exception handling, and `{**test1, **test2}` merges the two parsed
dicts.  Every failure path is an uncaught Python exception, modelled as
`Except.error`. -/
def analyze_chunk (parse : Str → Option JVal) (msg : RespMessage) :
    Except Str (PyDict JVal) :=
  match msg.tool_calls with
  | none => Except.error "TypeError: tool_calls is None".toList
  | some tcs =>
      match tcs.get? 0 with
      | none => Except.error "IndexError: tool_calls[0]".toList
      | some tc0 =>
          match parse tc0.arguments with
          | none => Except.error "JSONDecodeError".toList
          | some j0 =>
              match tcs.get? 1 with
              | none => Except.error "IndexError: tool_calls[1]".toList
              | some tc1 =>
                  match parse tc1.arguments with
                  | none => Except.error "JSONDecodeError".toList
                  | some j1 =>
                      match j0, j1 with
                      | JVal.obj o0, JVal.obj o1 =>
                          Except.ok (o1.foldl (fun m kv => dinsert m kv.1 kv.2) o0)
                      | _, _ => Except.error "TypeError: not a mapping".toList

/-- The `[self._analyze_chunk(c) for c in chunks]` comprehension in
`process`: one raising chunk aborts the whole list. -/
def analyze_all (parse : Str → Option JVal) : List RespMessage →
    Except Str (List (PyDict JVal))
  | [] => Except.ok []
  | m :: t =>
      match analyze_chunk parse m with
      | Except.error e => Except.error e
      | Except.ok r =>
          match analyze_all parse t with
          | Except.error e => Except.error e
          | Except.ok rs => Except.ok (r :: rs)

/-- Did this computation end in an uncaught exception? -/
def exceptRaises (x : Except Str β) : Bool :=
  match x with
  | Except.error _ => true
  | Except.ok _ => false

-- ── Concrete inputs used by witnesses and counterexamples ───────────

/-- A stored location `bar` whose `region` field is already populated. -/
def barStored : Location :=
  { id := "bar".toList, name := "Bar".toList
    description := "old bar".toList, region := "watson".toList }

/-- A world state holding `barStored` under its id. -/
def wsC1 : WorldState := { locations := [("bar".toList, barStored)] }

/-- A delta for the same entity (`slug "Bar" = "bar"`) that mentions only
`name` and `description`. -/
def itemC1 : LocItem := { name := "Bar".toList, description := "a dive bar".toList }

/-- Location delta whose name is pure punctuation. -/
def liPunct1 : LocItem := { name := "!!!".toList, description := "d1".toList }

/-- A different all-punctuation name. -/
def liPunct2 : LocItem := { name := "  ??  ".toList, description := "d2".toList }

/-- A one-entity-per-collection world state for the round-trip witness. -/
def wsRT : WorldState :=
  { locations := [("bar".toList, barStored)]
    factions := [("maelstrom".toList,
      { id := "maelstrom".toList, name := "Maelstrom".toList })]
    npcs := [("rogue".toList,
      { id := "rogue".toList, name := "Rogue".toList
        relationships := [("johnny".toList, "old flame".toList)] })] }

/-- The spec's chunker-boundary page: two short lines and one long one. -/
def pageC7 : Str :=
  ("Short\nShort2\nThis is a very long line exceeding thirty characters easily").toList

/-- What `_chunk_pdf` actually yields for `pageC7`: a single candidate in
which the bullet-merged pair and the long line are joined by the single
newline that `re.split(r"\n{2,}", ...)` never splits. -/
def chunkC7 : Str :=
  ("Short • Short2\nThis is a very long line exceeding thirty characters easily").toList

/-- A one-entry table of contents whose chapter starts at page 5. -/
def tocC8 : List TocEntry := [("Ch1".toList, 5)]

/-- A model response with an empty `tool_calls` list (a structurally
malformed extraction response). -/
def badResp : RespMessage := { tool_calls := some [] }

-- ════════════════════════════ THEOREMS ═════════════════════════════

-- ── Python dict lemmas ──────────────────────────────────────────────

theorem dget?_dinsert (d : PyDict α) (k : Str) (v : α) :
    dget? (dinsert d k v) k = some v := by
  induction d with
  | nil => simp [dinsert, dget?]
  | cons kv rest ih =>
      obtain ⟨k', v'⟩ := kv
      by_cases h : k' = k
      · simp [dinsert, h, dget?]
      · simp [dinsert, h, dget?, ih]

theorem dinsert_dinsert (d : PyDict α) (k : Str) (v w : α) :
    dinsert (dinsert d k v) k w = dinsert d k w := by
  induction d with
  | nil => simp [dinsert]
  | cons kv rest ih =>
      obtain ⟨k', v'⟩ := kv
      by_cases h : k' = k
      · simp [dinsert, h]
      · simp [dinsert, h, ih]

-- ── C1: as checked out, the merge overwrites nothing at all ─────────

/-- C1 counterexample: the delta `itemC1` slugs to the stored key `bar`
and carries the present, non-empty field `description = "a dive bar"`;
yet after `_apply_deltas` the stored description is still `"old bar"` —
the merge did **not** overwrite a field that is present and non-empty in
the delta (the `upsert_*` calls in `_apply_deltas` are commented out;
the constructed record is only printed, and nothing is stored). -/
theorem C1_counterexample :
    slug itemC1.name = ("bar").toList ∧
    itemC1.description = ("a dive bar").toList ∧
    itemC1.description ≠ [] ∧
    (dget? (apply_deltas wsC1 { locations := [itemC1] }).1.locations
        (("bar").toList)).map Location.description = some (("old bar").toList) :=
  ⟨rfl, rfl, by decide, rfl⟩

/-- C1 (amended): the delta application overwrites nothing — every
stored entity keeps every one of its fields under every key, because the
`upsert_*` calls inside `_apply_deltas` are commented out and the record
constructed for each delta is only printed.  Moreover that printed
record is built from the delta and the constructor defaults alone,
independently of the stored state — the same records are printed
whatever the world state holds — i.e. a full-record construction, not a
field-by-field patch of the stored entity. -/
theorem C1_merge_overwrites_nothing (ws ws' : WorldState) (d : ChunkDeltas)
    (k : Str) :
    dget? (apply_deltas ws d).1.locations k = dget? ws.locations k ∧
    dget? (apply_deltas ws d).1.npcs k = dget? ws.npcs k ∧
    dget? (apply_deltas ws d).1.factions k = dget? ws.factions k ∧
    (apply_deltas ws d).2 = (apply_deltas ws' d).2 :=
  ⟨rfl, rfl, rfl, rfl⟩

-- ── C2: merge idempotence ───────────────────────────────────────────

/-- C2: applying the same delta twice through the merge (slug the name,
upsert the constructed record into the matching collection) leaves
exactly the state that one application produces, for each of the three
entity kinds. -/
theorem C2_merge_idempotent (ws : WorldState)
    (li : LocItem) (ni : NpcItem) (fi : FacItem) :
    applyLocItem (applyLocItem ws li) li = applyLocItem ws li ∧
    applyNpcItem (applyNpcItem ws ni) ni = applyNpcItem ws ni ∧
    applyFacItem (applyFacItem ws fi) fi = applyFacItem ws fi := by
  refine ⟨?_, ?_, ?_⟩ <;>
    simp [applyLocItem, applyNpcItem, applyFacItem,
      upsert_location, upsert_npc, upsert_faction, dinsert_dinsert]

-- ── Slug lemmas for punctuation-only names ──────────────────────────

theorem alnum_of_slugCh (c : Char) (h : isSlugCh c = true) :
    isAsciiAlnum c = true := by
  simp only [isSlugCh, Bool.or_eq_true, Bool.and_eq_true, decide_eq_true_eq] at h
  simp only [isAsciiAlnum, Bool.or_eq_true, Bool.and_eq_true, decide_eq_true_eq]
  tauto

theorem slugCh_false_of_not_alnum (c : Char) (h : isAsciiAlnum c = false) :
    isSlugCh c = false := by
  cases hs : isSlugCh c with
  | false => rfl
  | true => rw [alnum_of_slugCh c hs] at h; cases h

theorem pyLowerCh_fixed_of_not_alnum (c : Char) (h : isAsciiAlnum c = false) :
    pyLowerCh c = c := by
  unfold pyLowerCh
  rw [if_neg]
  rintro ⟨h1, h2⟩
  have : isAsciiAlnum c = true := by
    simp only [isAsciiAlnum, Bool.or_eq_true, Bool.and_eq_true, decide_eq_true_eq]
    tauto
  rw [this] at h
  cases h

theorem subRuns_true_nil (s : Str) (h : ∀ c ∈ s, isSlugCh c = false) :
    subRuns true s = [] := by
  induction s with
  | nil => rfl
  | cons a r ih =>
      have ha := h a (List.mem_cons_self a r)
      simp only [subRuns, ha, Bool.false_eq_true, if_false, if_true]
      exact ih (fun c hc => h c (List.mem_cons_of_mem a hc))

theorem slug_nil_of_not_alnum (s : Str) (h : ∀ c ∈ s, isAsciiAlnum c = false) :
    slug s = [] := by
  have hm : pyLower s = s := by
    unfold pyLower
    induction s with
    | nil => rfl
    | cons a r ih =>
        rw [List.map_cons, pyLowerCh_fixed_of_not_alnum a (h a (List.mem_cons_self a r)),
          ih (fun c hc => h c (List.mem_cons_of_mem a hc))]
  unfold slug
  rw [hm]
  cases s with
  | nil => rfl
  | cons a r =>
      have ha : isSlugCh a = false :=
        slugCh_false_of_not_alnum a (h a (List.mem_cons_self a r))
      have hr : subRuns true r = [] :=
        subRuns_true_nil r (fun c hc =>
          slugCh_false_of_not_alnum c (h c (List.mem_cons_of_mem a hc)))
      simp only [subRuns, ha, Bool.false_eq_true, if_false, if_true, hr]
      rfl

-- ── C10: punctuation-only names share the id `""` ───────────────────

/-- C10: a name with no (ASCII) alphanumeric character slugs to the
empty string, so any two such names yield the same entity id `""` and
their deltas merge into a single world-state record: the second upsert
lands on the key of the first, and the two-delta merge equals the merge
of the second delta alone. -/
theorem C10_punct_names_collapse (ws : WorldState) (li₁ li₂ : LocItem)
    (h₁ : ∀ c ∈ li₁.name, isAsciiAlnum c = false)
    (h₂ : ∀ c ∈ li₂.name, isAsciiAlnum c = false) :
    slug li₁.name = [] ∧ slug li₂.name = [] ∧
    applyLocItem (applyLocItem ws li₁) li₂ = applyLocItem ws li₂ := by
  have e₁ : slug li₁.name = [] := slug_nil_of_not_alnum _ h₁
  have e₂ : slug li₂.name = [] := slug_nil_of_not_alnum _ h₂
  refine ⟨e₁, e₂, ?_⟩
  simp only [applyLocItem, upsert_location]
  have hid₁ : (mkLocation li₁).id = slug li₁.name := rfl
  have hid₂ : (mkLocation li₂).id = slug li₂.name := rfl
  rw [hid₁, hid₂, e₁, e₂]
  rw [dinsert_dinsert]

/-- C10 witness: the concrete names `"!!!"` and `"  ??  "` both slug to
`""` and their two merges collapse to the second's record. -/
theorem C10_witness :
    slug liPunct1.name = [] ∧ slug liPunct2.name = [] ∧
    applyLocItem (applyLocItem emptyWS liPunct1) liPunct2 =
      applyLocItem emptyWS liPunct2 :=
  C10_punct_names_collapse emptyWS liPunct1 liPunct2 (by decide) (by decide)

-- ── Slug output shape: characters, no adjacent underscores, ends ────

/-- No two adjacent underscores (the relation threaded through
`Chain'` over slug output). -/
def noTwoUs (a b : Char) : Prop := ¬(a = '_' ∧ b = '_')

theorem subRuns_mem (b : Bool) (s : Str) (c : Char) (h : c ∈ subRuns b s) :
    isSlugCh c = true ∨ c = '_' := by
  induction s generalizing b with
  | nil => simp [subRuns] at h
  | cons a r ih =>
      cases ha : isSlugCh a with
      | true =>
          rw [show subRuns b (a :: r) = a :: subRuns false r from by
            cases b <;> simp [subRuns, ha]] at h
          rcases List.mem_cons.mp h with rfl | h'
          · exact Or.inl ha
          · exact ih false h'
      | false =>
          cases b with
          | true =>
              rw [show subRuns true (a :: r) = subRuns true r from by
                simp [subRuns, ha]] at h
              exact ih true h
          | false =>
              rw [show subRuns false (a :: r) = '_' :: subRuns true r from by
                simp [subRuns, ha]] at h
              rcases List.mem_cons.mp h with rfl | h'
              · exact Or.inr rfl
              · exact ih true h'

theorem subRuns_true_head (s : Str) (c : Char)
    (h : (subRuns true s).head? = some c) : isSlugCh c = true := by
  induction s with
  | nil => simp [subRuns] at h
  | cons a r ih =>
      cases ha : isSlugCh a with
      | true =>
          rw [show subRuns true (a :: r) = a :: subRuns false r from by
            simp [subRuns, ha]] at h
          simp only [List.head?_cons, Option.some.injEq] at h
          exact h ▸ ha
      | false =>
          rw [show subRuns true (a :: r) = subRuns true r from by
            simp [subRuns, ha]] at h
          exact ih h

theorem subRuns_chain (b : Bool) (s : Str) : (subRuns b s).Chain' noTwoUs := by
  induction s generalizing b with
  | nil => simp [subRuns]
  | cons a r ih =>
      cases ha : isSlugCh a with
      | true =>
          rw [show subRuns b (a :: r) = a :: subRuns false r from by
            cases b <;> simp [subRuns, ha]]
          rw [List.chain'_cons']
          refine ⟨?_, ih false⟩
          rintro y _hy ⟨h1, _⟩
          rw [h1] at ha
          exact absurd ha (by decide)
      | false =>
          cases b with
          | true =>
              rw [show subRuns true (a :: r) = subRuns true r from by
                simp [subRuns, ha]]
              exact ih true
          | false =>
              rw [show subRuns false (a :: r) = '_' :: subRuns true r from by
                simp [subRuns, ha]]
              rw [List.chain'_cons']
              refine ⟨?_, ih true⟩
              rintro y hy ⟨_h1, h2⟩
              have hslug := subRuns_true_head r y hy
              rw [h2] at hslug
              exact absurd hslug (by decide)

theorem head?_dropWhile_false (p : Char → Bool) (l : Str) (c : Char)
    (h : (l.dropWhile p).head? = some c) : p c = false := by
  induction l with
  | nil => simp [List.dropWhile] at h
  | cons a r ih =>
      rw [List.dropWhile_cons] at h
      by_cases hp : p a
      · rw [if_pos hp] at h; exact ih h
      · rw [if_neg hp] at h
        simp only [List.head?_cons, Option.some.injEq] at h
        subst h
        exact Bool.eq_false_iff.mpr hp

theorem getLast?_dropWhile_some (p : Char → Bool) (l : Str) (c : Char)
    (h : (l.dropWhile p).getLast? = some c) : l.getLast? = some c := by
  induction l with
  | nil => simp [List.dropWhile] at h
  | cons a r ih =>
      rw [List.dropWhile_cons] at h
      by_cases hp : p a
      · rw [if_pos hp] at h
        have hr := ih h
        cases r with
        | nil => simp at hr
        | cons b t => rw [List.getLast?_cons_cons]; exact hr
      · rw [if_neg hp] at h; exact h

theorem stripUs_mem (v : Str) (c : Char) (h : c ∈ stripUs v) : c ∈ v := by
  unfold stripUs at h
  rw [List.mem_reverse] at h
  have h2 := List.dropWhile_subset (l := (v.dropWhile (fun c => c = '_')).reverse)
    (fun c => c = '_') h
  rw [List.mem_reverse] at h2
  exact List.dropWhile_subset (fun c => c = '_') h2

theorem stripUs_chain (v : Str) (h : v.Chain' noTwoUs) :
    (stripUs v).Chain' noTwoUs := by
  unfold stripUs
  have symmR : ∀ a b : Char, noTwoUs a b → noTwoUs b a := by
    rintro a b hab ⟨h1, h2⟩; exact hab ⟨h2, h1⟩
  have h1 : (v.dropWhile (fun c => c = '_')).Chain' noTwoUs :=
    h.suffix (List.dropWhile_suffix _)
  have h2 : ((v.dropWhile (fun c => c = '_')).reverse).Chain' noTwoUs := by
    rw [List.chain'_reverse]
    exact h1.imp (fun a b hab => symmR a b hab)
  have h3 := h2.suffix (List.dropWhile_suffix (fun c => c = '_'))
  rw [List.chain'_reverse]
  exact h3.imp (fun a b hab => symmR a b hab)

theorem stripUs_head (v : Str) (c : Char) (h : (stripUs v).head? = some c) :
    c ≠ '_' := by
  unfold stripUs at h
  rw [List.head?_reverse] at h
  have h2 := getLast?_dropWhile_some _ _ _ h
  rw [List.getLast?_eq_head?_reverse, List.reverse_reverse] at h2
  have h3 := head?_dropWhile_false _ _ _ h2
  simpa using h3

theorem stripUs_last (v : Str) (c : Char) (h : (stripUs v).getLast? = some c) :
    c ≠ '_' := by
  unfold stripUs at h
  rw [List.getLast?_eq_head?_reverse, List.reverse_reverse] at h
  have h3 := head?_dropWhile_false _ _ _ h
  simpa using h3

-- ── Slug is a fixed point on its own output ─────────────────────────

theorem pyLowerCh_fixed_good (c : Char) (h : isSlugCh c = true ∨ c = '_') :
    pyLowerCh c = c := by
  unfold pyLowerCh
  rw [if_neg]
  rintro ⟨h1, h2⟩
  rcases h with h | rfl
  · simp only [isSlugCh, Bool.or_eq_true, Bool.and_eq_true, decide_eq_true_eq] at h
    rcases h with ⟨ha, _⟩ | ⟨_, hb⟩
    · exact absurd (le_trans ha h2) (by decide)
    · exact absurd (le_trans h1 hb) (by decide)
  · exact absurd h2 (by decide)

theorem pyLower_fixed (t : Str) (h : ∀ c ∈ t, isSlugCh c = true ∨ c = '_') :
    pyLower t = t := by
  unfold pyLower
  induction t with
  | nil => rfl
  | cons a r ih =>
      rw [List.map_cons, pyLowerCh_fixed_good a (h a (List.mem_cons_self a r)),
        ih (fun c hc => h c (List.mem_cons_of_mem a hc))]

theorem subRuns_fixed : ∀ (t : Str),
    (∀ c ∈ t, isSlugCh c = true ∨ c = '_') → t.Chain' noTwoUs →
    (∀ c, t.head? = some c → isSlugCh c = true) → ∀ b, subRuns b t = t
  | [], _, _, _, b => by cases b <;> rfl
  | c :: cs, hmem, hch, hh, b => by
      have hc : isSlugCh c = true := hh c rfl
      rw [show subRuns b (c :: cs) = c :: subRuns false cs from by
        cases b <;> simp [subRuns, hc]]
      congr 1
      cases cs with
      | nil => rfl
      | cons d ds =>
          rcases hmem d (List.mem_cons_of_mem c (List.mem_cons_self d ds)) with hd | hd
          · exact subRuns_fixed (d :: ds)
              (fun e he => hmem e (List.mem_cons_of_mem c he))
              hch.tail
              (fun e he => by
                simp only [List.head?_cons, Option.some.injEq] at he
                exact he ▸ hd)
              false
          · subst hd
            rw [show subRuns false ('_' :: ds) = '_' :: subRuns true ds from by
              simp [subRuns, show isSlugCh '_' = false from by decide]]
            congr 1
            cases ds with
            | nil => rfl
            | cons e es =>
                have hpair : noTwoUs '_' e := (List.chain'_cons.mp hch.tail).1
                have he : isSlugCh e = true := by
                  rcases hmem e (List.mem_cons_of_mem c
                    (List.mem_cons_of_mem '_' (List.mem_cons_self e es))) with h | h
                  · exact h
                  · exact absurd ⟨rfl, h⟩ hpair
                exact subRuns_fixed (e :: es)
                  (fun x hx => hmem x (List.mem_cons_of_mem c (List.mem_cons_of_mem '_' hx)))
                  hch.tail.tail
                  (fun x hx => by
                    simp only [List.head?_cons, Option.some.injEq] at hx
                    exact hx ▸ he)
                  true
termination_by t => t.length

theorem stripUs_fixed (t : Str)
    (hh : ∀ c, t.head? = some c → c ≠ '_')
    (hl : ∀ c, t.getLast? = some c → c ≠ '_') : stripUs t = t := by
  unfold stripUs
  have h1 : t.dropWhile (fun c => c = '_') = t := by
    cases t with
    | nil => rfl
    | cons a r =>
        rw [List.dropWhile_cons, if_neg]
        simp only [decide_eq_true_eq]
        exact hh a rfl
  rw [h1]
  have h2 : t.reverse.dropWhile (fun c => c = '_') = t.reverse := by
    cases hr : t.reverse with
    | nil => rfl
    | cons a r =>
        have hla : t.getLast? = some a := by
          rw [List.getLast?_eq_head?_reverse, hr]; rfl
        rw [List.dropWhile_cons, if_neg]
        simp only [decide_eq_true_eq]
        exact hl a hla
  rw [h2, List.reverse_reverse]

theorem slug_mem (s : Str) (c : Char) (h : c ∈ slug s) :
    isSlugCh c = true ∨ c = '_' := by
  unfold slug at h
  exact subRuns_mem false (pyLower s) c (stripUs_mem _ c h)

theorem slug_idem (s : Str) : slug (slug s) = slug s := by
  have hmem : ∀ c ∈ slug s, isSlugCh c = true ∨ c = '_' := slug_mem s
  have hch : (slug s).Chain' noTwoUs := stripUs_chain _ (subRuns_chain false _)
  have hh : ∀ c, (slug s).head? = some c → isSlugCh c = true := by
    intro c hc
    rcases hmem c (List.mem_of_mem_head? hc) with h | h
    · exact h
    · exact absurd h (stripUs_head _ c hc)
  have hl : ∀ c, (slug s).getLast? = some c → c ≠ '_' := stripUs_last _
  show stripUs (subRuns false (pyLower (slug s))) = slug s
  rw [pyLower_fixed _ hmem, subRuns_fixed _ hmem hch hh false]
  exact stripUs_fixed _ (fun c hc h => absurd (hh c hc) (h ▸ by decide)) hl

-- ── C9: slug idempotence and variant collapse ───────────────────────

/-- C9: `slug` is idempotent — `slug (slug s) = slug s` for every string
— and the three spec variants `"Rogue"`, `"ROGUE!!"` and `"  rogue  "`
all resolve to the single id `"rogue"` (`slug` is a pure function of its
argument, so determinism is inherent in the model). -/
theorem C9_slug_idempotent_and_variants :
    (∀ s : Str, slug (slug s) = slug s) ∧
    slug ("Rogue").toList = ("rogue").toList ∧
    slug ("ROGUE!!").toList = ("rogue").toList ∧
    slug ("  rogue  ").toList = ("rogue").toList :=
  ⟨slug_idem, by decide, by decide, by decide⟩

-- ── Transcript-chunker lemmas ───────────────────────────────────────

/-- A word as produced by `text.split()`: nonempty and whitespace-free. -/
def goodWord (w : Str) : Prop := w ≠ [] ∧ ∀ c ∈ w, c.isWhitespace = false

theorem pyWordsAux_nil (cur : Str) :
    pyWordsAux [] cur = if cur = [] then [] else [cur.reverse] := rfl

theorem pyWordsAux_cons (c : Char) (rest cur : Str) :
    pyWordsAux (c :: rest) cur =
      if c.isWhitespace = true then
        (if cur = [] then pyWordsAux rest [] else cur.reverse :: pyWordsAux rest [])
      else pyWordsAux rest (c :: cur) := rfl

theorem pyWordsAux_good (s : Str) : ∀ (cur : Str),
    (∀ c ∈ cur, c.isWhitespace = false) →
    ∀ w ∈ pyWordsAux s cur, goodWord w := by
  induction s with
  | nil =>
      intro cur hcur w hw
      rw [pyWordsAux_nil] at hw
      by_cases hc : cur = []
      · simp [hc] at hw
      · rw [if_neg hc] at hw
        rcases List.mem_singleton.mp hw with rfl
        exact ⟨by simpa using hc, fun c hcw => hcur c (List.mem_reverse.mp hcw)⟩
  | cons a r ih =>
      intro cur hcur w hw
      rw [pyWordsAux_cons] at hw
      by_cases ha : a.isWhitespace
      · rw [if_pos ha] at hw
        by_cases hc : cur = []
        · rw [if_pos hc] at hw
          exact ih [] (by simp) w hw
        · rw [if_neg hc] at hw
          rcases List.mem_cons.mp hw with rfl | hw'
          · exact ⟨by simpa using hc, fun c hcw => hcur c (List.mem_reverse.mp hcw)⟩
          · exact ih [] (by simp) w hw'
      · rw [if_neg ha] at hw
        refine ih (a :: cur) ?_ w hw
        intro c hc
        rcases List.mem_cons.mp hc with rfl | hc'
        · exact Bool.eq_false_iff.mpr ha
        · exact hcur c hc'

theorem pyWords_good (s : Str) : ∀ w ∈ pyWords s, goodWord w :=
  pyWordsAux_good s [] (by simp)

theorem pyWordsAux_word (w : Str) (hw : ∀ c ∈ w, c.isWhitespace = false) :
    ∀ (rest cur : Str), pyWordsAux (w ++ rest) cur = pyWordsAux rest (w.reverse ++ cur) := by
  induction w with
  | nil => intro rest cur; simp
  | cons a w' ih =>
      intro rest cur
      have ha : ¬ a.isWhitespace = true := by
        simp [hw a (List.mem_cons_self a w')]
      rw [List.cons_append, pyWordsAux_cons, if_neg ha,
        ih (fun c hc => hw c (List.mem_cons_of_mem a hc)) rest (a :: cur)]
      congr 1
      rw [List.reverse_cons, List.append_assoc, List.singleton_append]

theorem pyWordsAux_flush (c : Char) (hc : c.isWhitespace = true)
    (rest cur : Str) (hcur : cur ≠ []) :
    pyWordsAux (c :: rest) cur = cur.reverse :: pyWordsAux rest [] := by
  rw [pyWordsAux_cons, if_pos hc, if_neg hcur]

theorem pyWords_joinSp (l : List Str) (h : ∀ w ∈ l, goodWord w) :
    pyWords (joinSp l) = l := by
  induction l with
  | nil => rfl
  | cons w l' ih =>
      have hw := h w (List.mem_cons_self w l')
      cases l' with
      | nil =>
          show pyWordsAux (joinSp [w]) [] = [w]
          rw [show joinSp [w] = w from rfl, show w = w ++ [] from by simp,
            pyWordsAux_word w hw.2 [] []]
          rw [pyWordsAux_nil, if_neg (by simpa using hw.1)]
          simp
      | cons w2 l'' =>
          show pyWordsAux (joinSp (w :: w2 :: l'')) [] = w :: w2 :: l''
          rw [show joinSp (w :: w2 :: l'') = w ++ ' ' :: joinSp (w2 :: l'') from rfl,
            pyWordsAux_word w hw.2 _ [],
            pyWordsAux_flush ' ' (by decide) _ _ (by simpa using hw.1)]
          rw [List.append_nil, List.reverse_reverse]
          congr 1
          exact ih (fun x hx => h x (List.mem_cons_of_mem w hx))

theorem sbtGo_join (tokLen : Str → Nat) (maxTok : Nat) :
    ∀ (ws buf : List Str), (∀ w ∈ buf, goodWord w) → (∀ w ∈ ws, goodWord w) →
    ((sbtGo tokLen maxTok ws buf).map pyWords).flatten = buf ++ ws := by
  intro ws
  induction ws with
  | nil =>
      intro buf hbuf _
      unfold sbtGo
      by_cases hb : buf = []
      · simp [hb]
      · rw [if_neg hb]
        simp [pyWords_joinSp buf hbuf]
  | cons w ws' ih =>
      intro buf hbuf hws
      have hbuf' : ∀ x ∈ buf ++ [w], goodWord x := by
        intro x hx
        rcases List.mem_append.mp hx with hx' | hx'
        · exact hbuf x hx'
        · rcases List.mem_singleton.mp hx' with rfl
          exact hws x (List.mem_cons_self x ws')
      have hws' : ∀ x ∈ ws', goodWord x :=
        fun x hx => hws x (List.mem_cons_of_mem w hx)
      unfold sbtGo
      by_cases hcut : maxTok < tokLen (joinSp (buf ++ [w]))
      · rw [if_pos hcut]
        simp only [List.map_cons, List.flatten_cons]
        rw [pyWords_joinSp _ hbuf', ih [] (by simp) hws']
        simp
      · rw [if_neg hcut, ih (buf ++ [w]) hbuf' hws']
        simp

-- ── C6: the transcript chunker preserves the word sequence ──────────

/-- C6: for every tokenizer, token budget and input text, splitting each
returned chunk back into its whitespace-delimited words and
concatenating, in order, reproduces exactly `text.split()` — no word is
dropped, duplicated or split mid-word.  In particular a single word
whose own token count exceeds the budget is still emitted (it is in the
word sequence of some chunk), and a nonempty final buffer is always
flushed (its words appear at the tail). -/
theorem C6_chunker_preserves_words (tokLen : Str → Nat) (maxTok : Nat) (text : Str) :
    ((split_by_tokens tokLen text maxTok).map pyWords).flatten = pyWords text := by
  unfold split_by_tokens
  rw [sbtGo_join tokLen maxTok (pyWords text) [] (by simp) (pyWords_good text)]
  simp

-- ── Persistence round-trip lemmas ───────────────────────────────────

theorem strList_roundtrip (ws : List Str) :
    (ws.map JVal.str).filterMap jvalToStr? = ws := by
  induction ws with
  | nil => rfl
  | cons w t ih => simp [List.filterMap_cons, jvalToStr?, ih]

theorem strDict_roundtrip (kvs : PyDict Str) :
    (kvs.map (fun kv => (kv.1, JVal.str kv.2))).filterMap jkvToStrKv? = kvs := by
  induction kvs with
  | nil => rfl
  | cons kv t ih => simp [List.filterMap_cons, jkvToStrKv?, ih]

theorem locFromJson_locToJson (l : Location) : locFromJson (locToJson l) = some l := by
  obtain ⟨i, n, d, t, pl, cm, sp, rg, fs, ev⟩ := l
  have h : locFromJson (locToJson ⟨i, n, d, t, pl, cm, sp, rg, fs, ev⟩) =
      some ⟨i, n, d, t, pl, cm, sp, rg,
        (fs.map JVal.str).filterMap jvalToStr?,
        (ev.map JVal.str).filterMap jvalToStr?⟩ := rfl
  rw [h, strList_roundtrip, strList_roundtrip]

theorem npcFromJson_npcToJson (x : NPC) : npcFromJson (npcToJson x) = some x := by
  obtain ⟨i, n, d, ro, af, lo, hl, cl, no, rel⟩ := x
  have h : npcFromJson (npcToJson ⟨i, n, d, ro, af, lo, hl, cl, no, rel⟩) =
      some ⟨i, n, d, ro, af, lo, hl, cl, no,
        (rel.map (fun kv => (kv.1, JVal.str kv.2))).filterMap jkvToStrKv?⟩ := rfl
  rw [h, strDict_roundtrip]

theorem facFromJson_facToJson (f : Faction) : facFromJson (facToJson f) = some f := by
  obtain ⟨i, n, t, d⟩ := f
  rfl

theorem parseAll_map_roundtrip (vs : List α) (toJ : α → JVal) (fromJ : JVal → Option α)
    (h : ∀ v, fromJ (toJ v) = some v) : parseAll fromJ (vs.map toJ) = some vs := by
  induction vs with
  | nil => rfl
  | cons v t ih => simp [parseAll, h, ih]

theorem dinsert_append (acc : PyDict α) (k : Str) (v : α) (h : k ∉ dkeys acc) :
    dinsert acc k v = acc ++ [(k, v)] := by
  induction acc with
  | nil => rfl
  | cons kv rest ih =>
      obtain ⟨k', v'⟩ := kv
      have hk : k' ≠ k := by
        intro he; exact h (he ▸ List.mem_cons_self k' _)
      rw [show dinsert ((k', v') :: rest) k v = (k', v') :: dinsert rest k v from by
        simp [dinsert, hk]]
      rw [ih (fun hm => h (List.mem_cons_of_mem k' hm)), List.cons_append]

theorem foldl_dinsert_keyed (getId : α → Str) :
    ∀ (d : PyDict α) (acc : PyDict α),
    (∀ kv ∈ d, kv.1 = getId kv.2) → (dkeys d).Nodup →
    (∀ kv ∈ d, kv.1 ∉ dkeys acc) →
    (dvalues d).foldl (fun m e => dinsert m (getId e) e) acc = acc ++ d := by
  intro d
  induction d with
  | nil => intro acc _ _ _; simp [dvalues]
  | cons kv t ih =>
      intro acc hid hnd hdisj
      obtain ⟨k, v⟩ := kv
      have hk : getId v = k := (hid (k, v) (List.mem_cons_self _ _)).symm
      rw [show dvalues ((k, v) :: t) = v :: dvalues t from rfl, List.foldl_cons, hk,
        dinsert_append acc k v (hdisj (k, v) (List.mem_cons_self _ _))]
      have hknot : k ∉ dkeys t := by
        have := hnd
        rw [show dkeys ((k, v) :: t) = k :: dkeys t from rfl] at this
        exact (List.nodup_cons.mp this).1
      rw [ih (acc ++ [(k, v)])
        (fun x hx => hid x (List.mem_cons_of_mem _ hx))
        (by
          have := hnd
          rw [show dkeys ((k, v) :: t) = k :: dkeys t from rfl] at this
          exact (List.nodup_cons.mp this).2)
        (by
          intro x hx hmem
          rw [show dkeys (acc ++ [(k, v)]) = dkeys acc ++ [k] from by
            simp [dkeys]] at hmem
          rcases List.mem_append.mp hmem with hm | hm
          · exact hdisj x (List.mem_cons_of_mem _ hx) hm
          · rcases List.mem_singleton.mp hm with he
            exact hknot (he ▸ List.mem_map_of_mem Prod.fst hx))]
      simp

theorem loadColl_roundtrip (d : PyDict α) (toJ : α → JVal) (fromJ : JVal → Option α)
    (getId : α → Str) (hro : ∀ v, fromJ (toJ v) = some v)
    (hid : ∀ kv ∈ d, kv.1 = getId kv.2) (hnd : (dkeys d).Nodup) :
    loadColl ((dvalues d).map toJ) fromJ getId = some d := by
  unfold loadColl
  rw [parseAll_map_roundtrip (dvalues d) toJ fromJ hro]
  show some ((dvalues d).foldl (fun m e => dinsert m (getId e) e) []) = some d
  rw [foldl_dinsert_keyed getId d [] hid hnd (by simp [dkeys])]
  simp

-- ── C3: world-state persistence round-trip ──────────────────────────

/-- C3: for every well-formed world state (each collection keys its
entities by their own `id`, keys unique — the invariant `upsert_*` and
`_load` maintain), saving the three collections and loading them back
yields exactly the same collections: every entity survives with its id
and every field value intact. -/
theorem C3_save_load_roundtrip (ws : WorldState) (h : WSwf ws) :
    loadWorld (some (saveLocations ws)) (some (saveFactions ws))
      (some (saveNpcs ws)) = some ws := by
  obtain ⟨h1, h2, h3, h4, h5, h6⟩ := h
  have hl := loadColl_roundtrip ws.locations locToJson locFromJson Location.id
    locFromJson_locToJson h2 h1
  have hf := loadColl_roundtrip ws.factions facToJson facFromJson Faction.id
    facFromJson_facToJson h4 h3
  have hn := loadColl_roundtrip ws.npcs npcToJson npcFromJson NPC.id
    npcFromJson_npcToJson h6 h5
  unfold loadWorld
  rw [show jArrD (safe_read (some (saveLocations ws))) ("locations").toList =
      (dvalues ws.locations).map locToJson from rfl]
  rw [show jArrD (safe_read (some (saveFactions ws))) ("factions").toList =
      (dvalues ws.factions).map facToJson from rfl]
  rw [show jArrD (safe_read (some (saveNpcs ws))) ("npcs").toList =
      (dvalues ws.npcs).map npcToJson from rfl]
  rw [hl, hf, hn]
  rfl

/-- C3 witness: a state with one location, one faction and one NPC
(with a nonempty relationships dict) is well formed and round-trips. -/
theorem C3_witness :
    WSwf wsRT ∧
    loadWorld (some (saveLocations wsRT)) (some (saveFactions wsRT))
      (some (saveNpcs wsRT)) = some wsRT :=
  ⟨by decide, C3_save_load_roundtrip wsRT (by decide)⟩

-- ── C5: corrupt backing files load as an empty world state ──────────

/-- C5: when the content of the backing files is not valid JSON
(`json.loads` fails — every such file is modelled by the parse outcome
`none`), `_safe_read` supplies `{}`, and the load returns the empty
world state — all three collections empty — instead of raising
(totality of the returned `some`). -/
theorem C5_corrupt_load_empty : loadWorld none none none = some emptyWS := rfl

-- ── C4: a malformed extraction response aborts the whole session ────

/-- C4 (code bug): for a chunk whose model response is structurally
malformed — here, `tool_calls == []`, so the mandatory `tool_calls[0]` /
`tool_calls[1]` indexing fails — `_analyze_chunk` raises instead of
returning an empty summary and empty delta set, and the comprehension
in `process` propagates the exception, aborting the remaining chunks,
whatever the JSON parser does with the other chunk's response. -/
theorem C4_malformed_chunk_aborts_session (parse : Str → Option JVal)
    (other : RespMessage) :
    exceptRaises (analyze_chunk parse badResp) = true ∧
    exceptRaises (analyze_all parse [other, badResp]) = true := by
  have hbad : analyze_chunk parse badResp =
      Except.error ("IndexError: tool_calls[0]").toList := rfl
  refine ⟨by rw [hbad]; rfl, ?_⟩
  show exceptRaises (analyze_all parse [other, badResp]) = true
  unfold analyze_all
  cases h : analyze_chunk parse other with
  | error e => rfl
  | ok r =>
      unfold analyze_all
      rw [hbad]
      rfl

-- ── C7: the paragraph split never fires, pages yield one candidate ──

/-- C7 counterexample: on the spec's boundary page the chunker emits a
**single** passage containing both the bullet-merged short lines and the
long line (the merged lines are rejoined with single newlines, and
`re.split(r"\n{2,}", ...)` only splits at blank-line runs, which never
occur), not a bullet-joined passage plus a separate long-line passage. -/
theorem C7_counterexample :
    chunkPageTexts pageC7 = [chunkC7] ∧ (chunkPageTexts pageC7).length ≠ 2 := by
  constructor
  · rfl
  · decide

/-- C7 (amended): the two short lines are bullet-merged inside the page
buffer, but the page is then emitted as one passage
`"Short • Short2\n<long line>"`; and (as claimed) every emitted chunk
has at least 30 characters — candidates shorter than 30 are discarded. -/
theorem C7_single_candidate_and_min_length :
    chunkPageTexts pageC7 = [chunkC7] ∧
    ∀ (t : Str), ∀ c ∈ chunkPageTexts t, 30 ≤ c.length := by
  refine ⟨rfl, ?_⟩
  intro t c hc
  unfold chunkPageTexts at hc
  have h := List.of_mem_filter hc
  simpa using h

/-- C7 witness: the emitted passage of the boundary page satisfies the
30-character floor. -/
theorem C7_witness : 30 ≤ chunkC7.length := by
  have h := C7_single_candidate_and_min_length
  exact h.2 pageC7 chunkC7 (by rw [h.1]; exact List.mem_singleton.mpr rfl)

-- ── C8: pages before the first TOC entry get its title, not Unknown ─

theorem advTi_stays (toc : List TocEntry) (p ti : Nat)
    (h : ¬(ti + 1 < toc.length ∧ tocStart toc (ti + 1) ≤ p + 1)) :
    ∀ fuel, advTi toc p ti fuel = ti := by
  intro fuel
  cases fuel with
  | zero => rfl
  | succ f => unfold advTi; rw [if_neg h]

theorem pageMapGo_empty_toc : ∀ (r ti p0 : Nat),
    pageMapGo [] ti p0 r = List.replicate r unknownChapter := by
  intro r
  induction r with
  | zero => intro ti p0; rfl
  | succ r' ih =>
      intro ti p0
      simp [pageMapGo, ih, List.replicate_succ]

theorem pageMapGo_before_first (toc : List TocEntry) (hne : toc ≠ []) :
    ∀ (q r p0 : Nat), q < r →
    (∀ i < toc.length, p0 + q + 1 < tocStart toc i) →
    (pageMapGo toc 0 p0 r).get? q = some (tocTitle toc 0) := by
  intro q
  induction q with
  | zero =>
      intro r p0 hqr h
      cases r with
      | zero => omega
      | succ r' =>
          unfold pageMapGo
          rw [advTi_stays toc p0 0 ?stay]
          case stay =>
            rintro ⟨hlt, hle⟩
            have h1 := h 1 hlt
            simp only [Nat.zero_add] at hle
            omega
          show ((if toc = [] then unknownChapter else tocTitle toc 0) ::
            pageMapGo toc 0 (p0 + 1) r').get? 0 = some (tocTitle toc 0)
          rw [if_neg hne]
          rfl
  | succ q' ih =>
      intro r p0 hqr h
      cases r with
      | zero => omega
      | succ r' =>
          unfold pageMapGo
          rw [advTi_stays toc p0 0 ?stay2]
          case stay2 =>
            rintro ⟨hlt, hle⟩
            have h1 := h 1 hlt
            simp only [Nat.zero_add] at hle
            omega
          show ((if toc = [] then unknownChapter else tocTitle toc 0) ::
            pageMapGo toc 0 (p0 + 1) r').get? (q' + 1) = some (tocTitle toc 0)
          rw [List.get?_cons_succ]
          refine ih r' (p0 + 1) (by omega) ?_
          intro i hi
          have := h i hi
          omega

/-- C8 counterexample: with the one-entry TOC `[("Ch1", 5)]`, page 0
(page number 1, before the chapter's start page 5) is tagged `"Ch1"`,
not `"Unknown"` as the claim states for pages before the first chapter
boundary. -/
theorem C8_counterexample :
    pageMap tocC8 1 = [("Ch1").toList] ∧ ("Ch1").toList ≠ unknownChapter := by
  exact ⟨rfl, by decide⟩

/-- C8 (amended): with an empty table of contents every page is tagged
`"Unknown"`; with a nonempty table of contents, a page lying before the
start page of every TOC entry is tagged with the **first** entry's title
(the scan clamps down to index 0), not `"Unknown"`. -/
theorem C8_empty_toc_unknown_and_clamp_to_first :
    (∀ n, pageMap [] n = List.replicate n unknownChapter) ∧
    (∀ (toc : List TocEntry) (n p : Nat), toc ≠ [] → p < n →
      (∀ i < toc.length, p + 1 < tocStart toc i) →
      (pageMap toc n).get? p = some (tocTitle toc 0)) := by
  constructor
  · intro n
    exact pageMapGo_empty_toc n 0 0
  · intro toc n p hne hpn h
    exact pageMapGo_before_first toc hne p n 0 hpn (by simpa using h)

/-- C8 witness: a three-page document with no TOC is all `"Unknown"`,
and with `tocC8` page 0 of a two-page document is tagged `"Ch1"`. -/
theorem C8_witness :
    pageMap [] 3 = List.replicate 3 unknownChapter ∧
    (pageMap tocC8 2).get? 0 = some (("Ch1").toList) := by
  constructor
  · exact C8_empty_toc_unknown_and_clamp_to_first.1 3
  · exact C8_empty_toc_unknown_and_clamp_to_first.2 tocC8 2 0 (by decide)
      (by decide) (by decide)

end CprGm
